import Mathlib

/-!
Verification of the GUI-Resource-Monitor collection-and-storage pipeline.

This development shallowly embeds the repository's `resource_collector.py`,
`data_storage.py` and the graph-data buffer of `gui_monitor.py`:

* SQLite TEXT values are modelled as `List Char`; the BINARY collation used
  by SQLite to compare TEXT columns is memcmp, which on the ASCII strings
  produced by `datetime.isoformat` coincides with the lexicographic order
  `List.Lex (· < ·)` on `List Char` (Mathlib's linear order on lists).
* Python `datetime` values (naive, microsecond precision) are modelled by
  the `Datetime` structure; `isoformat` / `fromisoformat` are modelled
  faithfully, including CPython's omission of the `.ffffff` suffix when the
  microsecond field is zero.
* Python floats stored in REAL columns pass through SQLite unchanged; since
  no arithmetic is ever performed on them by the storage layer they are
  modelled as rational numbers carried through unmodified.
* The SQLite table is modelled as a list of rows in insertion (rowid) order;
  `ORDER BY timestamp` is modelled as a stable insertion sort on the TEXT
  timestamp, `WHERE` clauses as filters, `LIMIT` as SQLite's limit semantics
  (a negative limit means no limit).
* Fallible engine operations take an explicit `engineFail` flag modelling a
  storage-engine failure (I/O error, corruption, ...) raised inside the
  transaction; Python's try/except blocks become the corresponding
  branches.
-/

namespace ResourceMonitor

/-! ### Decimal digit strings

`padNum w n` is the `w`-digit zero-padded decimal rendering of `n`
(most significant digit first), as produced by CPython's `datetime.isoformat`
for each datetime component. -/

/-- The ASCII character of a single decimal digit. -/
def digitChar (d : Nat) : Char := Char.ofNat (48 + d)

/-- Zero-padded fixed-width decimal rendering, most significant digit first. -/
def padNum : Nat → Nat → List Char
  | 0, _ => []
  | w + 1, n => digitChar (n / 10 ^ w) :: padNum w (n % 10 ^ w)

/-- Decode a single ASCII decimal digit. -/
def parseDigit (c : Char) : Option Nat :=
  if 48 ≤ c.toNat ∧ c.toNat ≤ 57 then some (c.toNat - 48) else none

/-- Consume exactly `w` decimal digits from the front of a character list,
extending the accumulator, and return the decoded value with the rest. -/
def parseFixedAux : Nat → Nat → List Char → Option (Nat × List Char)
  | 0, acc, s => some (acc, s)
  | _ + 1, _, [] => none
  | w + 1, acc, c :: s =>
    match parseDigit c with
    | some d => parseFixedAux w (acc * 10 + d) s
    | none => none

theorem digitChar_toNat {d : Nat} (h : d < 10) : (digitChar d).toNat = 48 + d := by
  interval_cases d <;> decide

theorem parseDigit_digitChar {d : Nat} (h : d < 10) : parseDigit (digitChar d) = some d := by
  interval_cases d <;> decide

theorem length_padNum (w n : Nat) : (padNum w n).length = w := by
  induction w generalizing n with
  | zero => rfl
  | succ w ih => simp [padNum, ih]

theorem parseFixedAux_padNum (w : Nat) :
    ∀ (acc n : Nat) (rest : List Char), n < 10 ^ w →
      parseFixedAux w acc (padNum w n ++ rest) = some (acc * 10 ^ w + n, rest) := by
  induction w with
  | zero =>
    intro acc n rest h
    interval_cases n
    simp [padNum, parseFixedAux]
  | succ w ih =>
    intro acc n rest h
    have hq : n / 10 ^ w < 10 := by
      have : n < 10 ^ w * 10 := by
        calc n < 10 ^ (w + 1) := h
        _ = 10 ^ w * 10 := by ring
      exact Nat.div_lt_of_lt_mul this
    have hr : n % 10 ^ w < 10 ^ w := Nat.mod_lt _ (Nat.pos_pow_of_pos w (by norm_num))
    have hdm := Nat.div_add_mod n (10 ^ w)
    simp only [padNum, List.cons_append, parseFixedAux, parseDigit_digitChar hq,
      List.append_eq]
    rw [ih (acc * 10 + n / 10 ^ w) (n % 10 ^ w) rest hr]
    congr 2
    have : (acc * 10 + n / 10 ^ w) * 10 ^ w + n % 10 ^ w
        = acc * (10 ^ w * 10) + (10 ^ w * (n / 10 ^ w) + n % 10 ^ w) := by ring
    rw [this, hdm]
    ring

theorem padNum_inj {w a b : Nat} (ha : a < 10 ^ w) (hb : b < 10 ^ w)
    (h : padNum w a = padNum w b) : a = b := by
  have h1 := parseFixedAux_padNum w 0 a [] ha
  have h2 := parseFixedAux_padNum w 0 b [] hb
  rw [h] at h1
  rw [h1] at h2
  simpa using h2

theorem padNum_inj_iff {w a b : Nat} (ha : a < 10 ^ w) (hb : b < 10 ^ w) :
    padNum w a = padNum w b ↔ a = b :=
  ⟨padNum_inj ha hb, fun h => by rw [h]⟩

/-! ### The memcmp order on character lists

SQLite compares TEXT values with memcmp (BINARY collation).  On ASCII
strings this is `List.Lex (· < ·)`, which is exactly the `<` of Mathlib's
linear order on `List Char`. -/

theorem lex_cons_of_ne {r : Char → Char → Prop} {a b : Char} {l₁ l₂ : List Char}
    (hab : a ≠ b) : List.Lex r (a :: l₁) (b :: l₂) ↔ r a b := by
  constructor
  · intro h
    cases h with
    | cons h => exact absurd rfl hab
    | rel h => exact h
  · exact fun h => List.Lex.rel h

theorem lex_append_iff {l₁ l₂ u v : List Char} (hlen : l₁.length = l₂.length) :
    List.Lex (· < ·) (l₁ ++ u) (l₂ ++ v)
      ↔ (List.Lex (· < ·) l₁ l₂ ∨ (l₁ = l₂ ∧ List.Lex (· < ·) u v)) := by
  induction l₁ generalizing l₂ with
  | nil =>
    cases l₂ with
    | nil => simp [List.Lex.not_nil_right]
    | cons b bs => simp at hlen
  | cons a as ih =>
    cases l₂ with
    | nil => simp at hlen
    | cons b bs =>
      simp only [List.length_cons, Nat.succ.injEq] at hlen
      by_cases hab : a = b
      · subst hab
        simp only [List.cons_append, List.Lex.cons_iff, ih hlen, List.cons.injEq,
          true_and]
      · simp only [List.cons_append, lex_cons_of_ne hab, List.cons.injEq]
        simp [hab]

theorem padNum_lex_iff {w a b : Nat} (ha : a < 10 ^ w) (hb : b < 10 ^ w) :
    List.Lex (· < ·) (padNum w a) (padNum w b) ↔ a < b := by
  induction w generalizing a b with
  | zero =>
    interval_cases a
    interval_cases b
    simp [padNum, List.Lex.not_nil_right]
  | succ w ih =>
    have ha10 : a < 10 ^ w * 10 := by
      calc a < 10 ^ (w + 1) := ha
      _ = 10 ^ w * 10 := by ring
    have hb10 : b < 10 ^ w * 10 := by
      calc b < 10 ^ (w + 1) := hb
      _ = 10 ^ w * 10 := by ring
    have hqa : a / 10 ^ w < 10 := Nat.div_lt_of_lt_mul ha10
    have hqb : b / 10 ^ w < 10 := Nat.div_lt_of_lt_mul hb10
    have hra : a % 10 ^ w < 10 ^ w := Nat.mod_lt _ (Nat.pos_pow_of_pos w (by norm_num))
    have hrb : b % 10 ^ w < 10 ^ w := Nat.mod_lt _ (Nat.pos_pow_of_pos w (by norm_num))
    have hdma := Nat.div_add_mod a (10 ^ w)
    have hdmb := Nat.div_add_mod b (10 ^ w)
    simp only [padNum]
    by_cases hq : a / 10 ^ w = b / 10 ^ w
    · rw [hq, List.Lex.cons_iff, ih hra hrb]
      obtain ⟨E, hEa, hEb⟩ : ∃ E, a = E + a % 10 ^ w ∧ b = E + b % 10 ^ w := by
        refine ⟨10 ^ w * (a / 10 ^ w), hdma.symm, ?_⟩
        rw [hq]
        exact hdmb.symm
      omega
    · have hne : digitChar (a / 10 ^ w) ≠ digitChar (b / 10 ^ w) := by
        intro h
        apply hq
        have := congrArg Char.toNat h
        rw [digitChar_toNat hqa, digitChar_toNat hqb] at this
        omega
      rw [lex_cons_of_ne hne]
      have hchar : digitChar (a / 10 ^ w) < digitChar (b / 10 ^ w)
          ↔ a / 10 ^ w < b / 10 ^ w := by
        show (digitChar (a / 10 ^ w)).toNat < (digitChar (b / 10 ^ w)).toNat
          ↔ a / 10 ^ w < b / 10 ^ w
        rw [digitChar_toNat hqa, digitChar_toNat hqb]
        omega
      rw [hchar]
      constructor
      · intro h
        have h1 : 10 ^ w * (a / 10 ^ w + 1) = 10 ^ w * (a / 10 ^ w) + 10 ^ w :=
          Nat.mul_succ _ _
        have h2 : 10 ^ w * (a / 10 ^ w + 1) ≤ 10 ^ w * (b / 10 ^ w) :=
          Nat.mul_le_mul_left _ (by omega)
        omega
      · intro h
        have : a / 10 ^ w ≤ b / 10 ^ w := Nat.div_le_div_right (Nat.le_of_lt h)
        omega

/-! ### Naive Python datetimes

`ResourceMetrics.timestamp` is a naive `datetime.datetime` produced by
`datetime.now()`; the storage layer serialises it with `isoformat()` and
parses it back with `datetime.fromisoformat()`. -/

/-- A naive Python `datetime.datetime` (year, month, day, hour, minute,
second, microsecond). -/
structure Datetime where
  year : Nat
  month : Nat
  day : Nat
  hour : Nat
  minute : Nat
  second : Nat
  microsecond : Nat
deriving DecidableEq

/-- Field ranges enforced by the `datetime.datetime` constructor. -/
def Datetime.valid (t : Datetime) : Prop :=
  1 ≤ t.year ∧ t.year ≤ 9999 ∧ 1 ≤ t.month ∧ t.month ≤ 12 ∧ 1 ≤ t.day ∧ t.day ≤ 31 ∧
    t.hour ≤ 23 ∧ t.minute ≤ 59 ∧ t.second ≤ 59 ∧ t.microsecond ≤ 999999

instance (t : Datetime) : Decidable t.valid := by
  unfold Datetime.valid
  infer_instance

/-- Mixed-radix collapse of a datetime into a single natural number;
for valid datetimes, comparing keys is exactly Python's field-lexicographic
`datetime` comparison. -/
def Datetime.key (t : Datetime) : Nat :=
  ((((((t.year * 100 + t.month) * 100 + t.day) * 100 + t.hour) * 100 + t.minute) * 100
    + t.second) * 1000000 + t.microsecond)

/-- CPython's `datetime.isoformat()` for naive datetimes:
`YYYY-MM-DDTHH:MM:SS` followed by `.ffffff` only when the microsecond field
is nonzero. -/
def Datetime.isoformat (t : Datetime) : List Char :=
  padNum 4 t.year ++ '-' :: (padNum 2 t.month ++ '-' :: (padNum 2 t.day ++ 'T' ::
    (padNum 2 t.hour ++ ':' :: (padNum 2 t.minute ++ ':' :: (padNum 2 t.second ++
      (if t.microsecond = 0 then [] else '.' :: padNum 6 t.microsecond))))))

/-- Expect a fixed character at the head of the input. -/
def expectChar (c : Char) : List Char → Option (List Char)
  | [] => none
  | x :: s => if x = c then some s else none

/-- Parse a fixed-width number followed by a fixed separator character. -/
def parseNumSep (w : Nat) (c : Char) (s : List Char) : Option (Nat × List Char) :=
  (parseFixedAux w 0 s).bind (fun p =>
    (expectChar c p.2).bind (fun r => some (p.1, r)))

/-- Parse the optional fractional-second tail: either nothing (microsecond 0)
or a dot followed by exactly six digits ending the string. -/
def parseMicroTail : List Char → Option Nat
  | [] => some 0
  | c :: s =>
    if c = '.' then
      (parseFixedAux 6 0 s).bind (fun p =>
        match p.2 with
        | [] => some p.1
        | _ => none)
    else none

/-- Model of `datetime.fromisoformat`, restricted to the canonical renderings
produced by `Datetime.isoformat` (the only strings this repository ever
stores); any other input is a parse failure (CPython raises `ValueError`). -/
def fromisoformat (s : List Char) : Option Datetime :=
  (parseNumSep 4 '-' s).bind (fun py =>
  (parseNumSep 2 '-' py.2).bind (fun pmo =>
  (parseNumSep 2 'T' pmo.2).bind (fun pd =>
  (parseNumSep 2 ':' pd.2).bind (fun ph =>
  (parseNumSep 2 ':' ph.2).bind (fun pmi =>
  (parseFixedAux 2 0 pmi.2).bind (fun pse =>
  (parseMicroTail pse.2).bind (fun us =>
  (fun t : Datetime => if t.valid then some t else none)
    ⟨py.1, pmo.1, pd.1, ph.1, pmi.1, pse.1, us⟩)))))))

theorem expectChar_cons_self (c : Char) (s : List Char) :
    expectChar c (c :: s) = some s := by
  simp [expectChar]

theorem parseFixed0 {w n : Nat} (h : n < 10 ^ w) (rest : List Char) :
    parseFixedAux w 0 (padNum w n ++ rest) = some (n, rest) := by
  rw [parseFixedAux_padNum _ _ _ _ h]
  norm_num

theorem parseNumSep_pad {w n : Nat} (h : n < 10 ^ w) (c : Char) (rest : List Char) :
    parseNumSep w c (padNum w n ++ c :: rest) = some (n, rest) := by
  unfold parseNumSep
  rw [parseFixed0 h]
  simp only [Option.some_bind, expectChar_cons_self]

theorem parseMicroTail_spec {us : Nat} (h : us < 10 ^ 6) :
    parseMicroTail (if us = 0 then ([] : List Char) else '.' :: padNum 6 us) = some us := by
  by_cases hz : us = 0
  · subst hz
    simp [parseMicroTail]
  · rw [if_neg hz]
    show parseMicroTail ('.' :: padNum 6 us) = some us
    rw [show (padNum 6 us : List Char) = padNum 6 us ++ [] from (List.append_nil _).symm]
    simp only [parseMicroTail, eq_self_iff_true, if_true]
    rw [parseFixed0 h]
    rfl

theorem fromisoformat_isoformat {t : Datetime} (h : t.valid) :
    fromisoformat t.isoformat = some t := by
  have hv := h
  obtain ⟨y, mo, d, hr, mi, se, us⟩ := t
  obtain ⟨h1, h2, h3, h4, h5, h6, h7, h8, h9, h10⟩ := h
  simp only at h1 h2 h3 h4 h5 h6 h7 h8 h9 h10
  show fromisoformat
      (padNum 4 y ++ '-' :: (padNum 2 mo ++ '-' :: (padNum 2 d ++ 'T' ::
        (padNum 2 hr ++ ':' :: (padNum 2 mi ++ ':' :: (padNum 2 se ++
          (if us = 0 then [] else '.' :: padNum 6 us))))))) = _
  unfold fromisoformat
  rw [parseNumSep_pad (show y < 10 ^ 4 by omega)]
  simp only [Option.some_bind]
  rw [parseNumSep_pad (show mo < 10 ^ 2 by omega)]
  simp only [Option.some_bind]
  rw [parseNumSep_pad (show d < 10 ^ 2 by omega)]
  simp only [Option.some_bind]
  rw [parseNumSep_pad (show hr < 10 ^ 2 by omega)]
  simp only [Option.some_bind]
  rw [parseNumSep_pad (show mi < 10 ^ 2 by omega)]
  simp only [Option.some_bind]
  rw [parseFixed0 (show se < 10 ^ 2 by omega)]
  simp only [Option.some_bind]
  rw [parseMicroTail_spec (show us < 10 ^ 6 by omega)]
  simp only [Option.some_bind]
  exact if_pos hv

theorem isoformat_inj {t1 t2 : Datetime} (h1 : t1.valid) (h2 : t2.valid)
    (h : t1.isoformat = t2.isoformat) : t1 = t2 := by
  have e1 := fromisoformat_isoformat h1
  have e2 := fromisoformat_isoformat h2
  rw [h, e2] at e1
  exact (Option.some.injEq _ _).mp e1.symm

/-- Helper for comparing the optional fractional-second suffix. -/
theorem lex_micro_iff {u1 u2 : Nat} (h1 : u1 < 10 ^ 6) (h2 : u2 < 10 ^ 6) :
    List.Lex (· < ·) (if u1 = 0 then [] else '.' :: padNum 6 u1)
      (if u2 = 0 then [] else '.' :: padNum 6 u2) ↔ u1 < u2 := by
  by_cases hz1 : u1 = 0 <;> by_cases hz2 : u2 = 0
  · simp [hz1, hz2, List.Lex.not_nil_right]
  · subst hz1
    simp only [if_pos rfl, if_neg hz2]
    constructor
    · intro _
      omega
    · intro _
      exact List.Lex.nil
  · subst hz2
    simp only [if_neg hz1, if_pos rfl]
    constructor
    · intro hl
      exact absurd hl (List.Lex.not_nil_right _ _)
    · intro hl
      omega
  · simp only [if_neg hz1, if_neg hz2, List.Lex.cons_iff]
    exact padNum_lex_iff h1 h2

/-- The memcmp (SQLite BINARY) order on stored ISO timestamps agrees with
the order of the underlying datetimes. -/
theorem isoformat_lt_iff {t1 t2 : Datetime} (h1 : t1.valid) (h2 : t2.valid) :
    t1.isoformat < t2.isoformat ↔ t1.key < t2.key := by
  obtain ⟨a1, a2, a3, a4, a5, a6, a7, a8, a9, a10⟩ := h1
  obtain ⟨b1, b2, b3, b4, b5, b6, b7, b8, b9, b10⟩ := h2
  show List.Lex (· < ·) t1.isoformat t2.isoformat ↔ t1.key < t2.key
  unfold Datetime.isoformat
  rw [lex_append_iff (by rw [length_padNum, length_padNum])]
  rw [padNum_lex_iff (show t1.year < 10 ^ 4 by omega) (show t2.year < 10 ^ 4 by omega)]
  rw [padNum_inj_iff (show t1.year < 10 ^ 4 by omega) (show t2.year < 10 ^ 4 by omega)]
  rw [List.Lex.cons_iff]
  rw [lex_append_iff (by rw [length_padNum, length_padNum])]
  rw [padNum_lex_iff (show t1.month < 10 ^ 2 by omega) (show t2.month < 10 ^ 2 by omega)]
  rw [padNum_inj_iff (show t1.month < 10 ^ 2 by omega) (show t2.month < 10 ^ 2 by omega)]
  rw [List.Lex.cons_iff]
  rw [lex_append_iff (by rw [length_padNum, length_padNum])]
  rw [padNum_lex_iff (show t1.day < 10 ^ 2 by omega) (show t2.day < 10 ^ 2 by omega)]
  rw [padNum_inj_iff (show t1.day < 10 ^ 2 by omega) (show t2.day < 10 ^ 2 by omega)]
  rw [List.Lex.cons_iff]
  rw [lex_append_iff (by rw [length_padNum, length_padNum])]
  rw [padNum_lex_iff (show t1.hour < 10 ^ 2 by omega) (show t2.hour < 10 ^ 2 by omega)]
  rw [padNum_inj_iff (show t1.hour < 10 ^ 2 by omega) (show t2.hour < 10 ^ 2 by omega)]
  rw [List.Lex.cons_iff]
  rw [lex_append_iff (by rw [length_padNum, length_padNum])]
  rw [padNum_lex_iff (show t1.minute < 10 ^ 2 by omega) (show t2.minute < 10 ^ 2 by omega)]
  rw [padNum_inj_iff (show t1.minute < 10 ^ 2 by omega) (show t2.minute < 10 ^ 2 by omega)]
  rw [List.Lex.cons_iff]
  rw [lex_append_iff (by rw [length_padNum, length_padNum])]
  rw [padNum_lex_iff (show t1.second < 10 ^ 2 by omega) (show t2.second < 10 ^ 2 by omega)]
  rw [padNum_inj_iff (show t1.second < 10 ^ 2 by omega) (show t2.second < 10 ^ 2 by omega)]
  rw [lex_micro_iff (show t1.microsecond < 10 ^ 6 by omega)
    (show t2.microsecond < 10 ^ 6 by omega)]
  unfold Datetime.key
  omega

theorem isoformat_le_iff {t1 t2 : Datetime} (h1 : t1.valid) (h2 : t2.valid) :
    t1.isoformat ≤ t2.isoformat ↔ t1.key ≤ t2.key := by
  rw [← not_lt, show (t1.key ≤ t2.key) = ¬ (t2.key < t1.key) from (propext not_lt).symm]
  exact not_congr (isoformat_lt_iff h2 h1)

/-! ### The data model

`ResourceMetrics` is the dataclass of `resource_collector.py`: a timestamp
plus eleven float readings.  The floats are never computed with by the
storage layer — SQLite REAL columns store and return Python floats
unchanged — so they are modelled as rationals carried through unmodified. -/

/-- The `ResourceMetrics` dataclass of `resource_collector.py`. -/
structure ResourceMetrics where
  timestamp : Datetime
  cpu_percent : Rat
  memory_percent : Rat
  memory_used_mb : Rat
  memory_total_mb : Rat
  disk_percent : Rat
  disk_used_gb : Rat
  disk_total_gb : Rat
  network_sent_mb : Rat
  network_recv_mb : Rat
  network_sent_rate_mbps : Rat
  network_recv_rate_mbps : Rat
deriving DecidableEq

/-- One row of the `resource_metrics` table: the timestamp as stored in its
TEXT column (the `isoformat` rendering) plus the eleven REAL columns.  The
AUTOINCREMENT `id` is implicit in the list position (insertion order =
rowid order). -/
structure DbRow where
  timestamp : List Char
  cpu_percent : Rat
  memory_percent : Rat
  memory_used_mb : Rat
  memory_total_mb : Rat
  disk_percent : Rat
  disk_used_gb : Rat
  disk_total_gb : Rat
  network_sent_mb : Rat
  network_recv_mb : Rat
  network_sent_rate_mbps : Rat
  network_recv_rate_mbps : Rat
deriving DecidableEq

/-- The tuple built by `save_metrics` / `save_metrics_batch` for the INSERT:
`(metrics.timestamp.isoformat(), metrics.cpu_percent, ...)`. -/
def toRow (m : ResourceMetrics) : DbRow :=
  { timestamp := m.timestamp.isoformat
    cpu_percent := m.cpu_percent
    memory_percent := m.memory_percent
    memory_used_mb := m.memory_used_mb
    memory_total_mb := m.memory_total_mb
    disk_percent := m.disk_percent
    disk_used_gb := m.disk_used_gb
    disk_total_gb := m.disk_total_gb
    network_sent_mb := m.network_sent_mb
    network_recv_mb := m.network_recv_mb
    network_sent_rate_mbps := m.network_sent_rate_mbps
    network_recv_rate_mbps := m.network_recv_rate_mbps }

/-- `ResourceDataStorage._row_to_metrics`: rebuild a `ResourceMetrics` from a
row; `datetime.fromisoformat` raising on a malformed timestamp is modelled
by `none` (the exception is caught at the boundary of the calling read
operation). -/
def row_to_metrics (r : DbRow) : Option ResourceMetrics :=
  match fromisoformat r.timestamp with
  | none => none
  | some t => some
    { timestamp := t
      cpu_percent := r.cpu_percent
      memory_percent := r.memory_percent
      memory_used_mb := r.memory_used_mb
      memory_total_mb := r.memory_total_mb
      disk_percent := r.disk_percent
      disk_used_gb := r.disk_used_gb
      disk_total_gb := r.disk_total_gb
      network_sent_mb := r.network_sent_mb
      network_recv_mb := r.network_recv_mb
      network_sent_rate_mbps := r.network_sent_rate_mbps
      network_recv_rate_mbps := r.network_recv_rate_mbps }

theorem row_to_metrics_toRow {m : ResourceMetrics} (h : m.timestamp.valid) :
    row_to_metrics (toRow m) = some m := by
  unfold row_to_metrics toRow
  rw [fromisoformat_isoformat h]

/-- A metrics list whose timestamps are all constructible Python datetimes. -/
def validTimes (ms : List ResourceMetrics) : Prop :=
  ∀ m ∈ ms, m.timestamp.valid

instance (ms : List ResourceMetrics) : Decidable (validTimes ms) :=
  List.decidableBAll _ ms

theorem mapM_row_to_metrics {ms : List ResourceMetrics} (h : validTimes ms) :
    (ms.map toRow).mapM row_to_metrics = some ms := by
  induction ms with
  | nil => rfl
  | cons m rest ih =>
    have hm : m.timestamp.valid := h m (List.mem_cons_self m rest)
    have hrest : validTimes rest := fun x hx => h x (List.mem_cons_of_mem m hx)
    simp only [List.map_cons, List.mapM_cons, row_to_metrics_toRow hm, ih hrest]
    rfl

/-! ### The Store: `ResourceDataStorage` of `data_storage.py`

The table is a list of rows in rowid (insertion) order.  Each public
operation opens one connection / transaction (`_get_connection`); an engine
failure inside the transaction rolls it back, and the operation's
`try/except` converts the exception into that operation's documented
fallback return value.  The explicit `engineFail` argument says whether the
storage engine raises during the call. -/

/-- The `resource_metrics` table in rowid order. -/
abbrev Store := List DbRow

/-- Timestamp ordering used by `ORDER BY timestamp ASC` (memcmp on TEXT). -/
def rowLeAsc (a b : DbRow) : Prop := a.timestamp ≤ b.timestamp

/-- Timestamp ordering used by `ORDER BY timestamp DESC`. -/
def rowLeDesc (a b : DbRow) : Prop := b.timestamp ≤ a.timestamp

instance : DecidableRel rowLeAsc := fun a b =>
  inferInstanceAs (Decidable (a.timestamp ≤ b.timestamp))

instance : DecidableRel rowLeDesc := fun a b =>
  inferInstanceAs (Decidable (b.timestamp ≤ a.timestamp))

instance : IsTotal DbRow rowLeAsc := ⟨fun a b => le_total a.timestamp b.timestamp⟩

instance : IsTotal DbRow rowLeDesc := ⟨fun a b => le_total b.timestamp a.timestamp⟩

instance : IsTrans DbRow rowLeAsc :=
  ⟨fun a b c h1 h2 =>
    show a.timestamp ≤ c.timestamp from
      le_trans (show a.timestamp ≤ b.timestamp from h1)
        (show b.timestamp ≤ c.timestamp from h2)⟩

instance : IsTrans DbRow rowLeDesc :=
  ⟨fun a b c h1 h2 =>
    show c.timestamp ≤ a.timestamp from
      le_trans (show c.timestamp ≤ b.timestamp from h2)
        (show b.timestamp ≤ a.timestamp from h1)⟩

/-- SQLite `LIMIT n`: a negative limit means no limit. -/
def sqlLimit (n : Int) (xs : List DbRow) : List DbRow :=
  if n < 0 then xs else xs.take n.toNat

/-- The `timestamp >= ?` condition added when `start_time` is not `None`. -/
def matchesLower (start_time : Option Datetime) (r : DbRow) : Bool :=
  match start_time with
  | none => true
  | some t => decide (t.isoformat ≤ r.timestamp)

/-- The `timestamp <= ?` condition added when `end_time` is not `None`. -/
def matchesUpper (end_time : Option Datetime) (r : DbRow) : Bool :=
  match end_time with
  | none => true
  | some t => decide (r.timestamp ≤ t.isoformat)

/-- `ResourceDataStorage.save_metrics`: INSERT one record; on an engine
failure the transaction is rolled back and the except-branch returns
`False`. -/
def save_metrics (engineFail : Bool) (st : Store) (m : ResourceMetrics) : Store × Bool :=
  if engineFail then (st, false) else (st ++ [toRow m], true)

/-- Result of `save_metrics_batch`: the table afterwards, the returned
count, and how many connections the call opened. -/
structure BatchSaveResult where
  store : Store
  written : Nat
  connectionsOpened : Nat
deriving DecidableEq

/-- `ResourceDataStorage.save_metrics_batch`: the empty-list guard returns 0
before any connection is opened; otherwise one transaction inserts all rows
(`executemany`), and an engine failure rolls the whole transaction back and
returns 0. -/
def save_metrics_batch (engineFail : Bool) (st : Store) (ms : List ResourceMetrics) :
    BatchSaveResult :=
  if ms.isEmpty then ⟨st, 0, 0⟩
  else if engineFail then ⟨st, 0, 1⟩
  else ⟨st ++ ms.map toRow, ms.length, 1⟩

/-- `ResourceDataStorage.get_metrics_by_time_range`: WHERE clauses for the
present bounds, `ORDER BY timestamp ASC`, `LIMIT` only when `limit` is
truthy (Python `if limit:` — `None` and `0` both skip the clause), rows
decoded by `_row_to_metrics`; any exception yields `[]`. -/
def get_metrics_by_time_range (engineFail : Bool) (st : Store)
    (start_time end_time : Option Datetime) (limit : Option Int) :
    List ResourceMetrics :=
  if engineFail then []
  else
    let rows := st.filter (fun r => matchesLower start_time r && matchesUpper end_time r)
    let sorted := List.insertionSort rowLeAsc rows
    let limited :=
      match limit with
      | none => sorted
      | some l => if l = 0 then sorted else sqlLimit l sorted
    match limited.mapM row_to_metrics with
    | none => []
    | some ms => ms

/-- `ResourceDataStorage.get_latest_metrics`: `ORDER BY timestamp DESC
LIMIT count`, then the rows are decoded in reversed (chronological) order;
any exception yields `[]`. -/
def get_latest_metrics (engineFail : Bool) (st : Store) (count : Int) :
    List ResourceMetrics :=
  if engineFail then []
  else
    let rows := sqlLimit count (List.insertionSort rowLeDesc st)
    match rows.reverse.mapM row_to_metrics with
    | none => []
    | some ms => ms

/-- `ResourceDataStorage.get_metrics_count`: `COUNT(*)`, 0 on failure. -/
def get_metrics_count (engineFail : Bool) (st : Store) : Nat :=
  if engineFail then 0 else st.length

/-- One aggregation step of `SELECT MIN(timestamp)`. -/
def tsMinStep (acc : Option (List Char)) (r : DbRow) : Option (List Char) :=
  match acc with
  | none => some r.timestamp
  | some m => if r.timestamp < m then some r.timestamp else some m

/-- One aggregation step of `SELECT MAX(timestamp)`. -/
def tsMaxStep (acc : Option (List Char)) (r : DbRow) : Option (List Char) :=
  match acc with
  | none => some r.timestamp
  | some m => if m < r.timestamp then some r.timestamp else some m

/-- `SELECT MIN(timestamp)` (NULL on an empty table). -/
def minTimestamp (st : Store) : Option (List Char) :=
  st.foldl tsMinStep none

/-- `SELECT MAX(timestamp)` (NULL on an empty table). -/
def maxTimestamp (st : Store) : Option (List Char) :=
  st.foldl tsMaxStep none

/-- `ResourceDataStorage.get_oldest_timestamp`: `None` when the table is
empty (`if result:` is falsy for NULL and for the empty string), otherwise
`datetime.fromisoformat` of the minimum; `None` on any exception. -/
def get_oldest_timestamp (engineFail : Bool) (st : Store) : Option Datetime :=
  if engineFail then none
  else
    match minTimestamp st with
    | none => none
    | some s => if s.isEmpty then none else fromisoformat s

/-- `ResourceDataStorage.get_newest_timestamp`. -/
def get_newest_timestamp (engineFail : Bool) (st : Store) : Option Datetime :=
  if engineFail then none
  else
    match maxTimestamp st with
    | none => none
    | some s => if s.isEmpty then none else fromisoformat s

/-- `ResourceDataStorage.delete_old_metrics`: the `DELETE WHERE timestamp < ?`
runs inside the transaction that `sqlite3` implicitly opens for it (the
connection uses the default `isolation_level`), and the
`cursor.execute("VACUUM")` that follows — still inside that open
transaction — deterministically raises `sqlite3.OperationalError: cannot
VACUUM from within a transaction` on every Python this code runs on
(since 3.6 the module never commits implicitly before a non-DML
statement, and the repository's `tuple[...]` annotations need ≥ 3.9).
`_get_connection` then rolls the DELETE back and the outer `except`
returns 0: the table is never changed and 0 is always returned.  The
underscore-bound lets record the DELETE's transient effect (the kept rows
and `cursor.rowcount`) that the rollback discards. -/
def delete_old_metrics (engineFail : Bool) (st : Store) (before_date : Datetime) :
    Store × Nat :=
  if engineFail then (st, 0)
  else
    let _kept := st.filter (fun r => !(decide (r.timestamp < before_date.isoformat)))
    let _rowcount := st.length - _kept.length
    (st, 0)

/-- `ResourceDataStorage.delete_all_metrics`: same VACUUM-inside-transaction
failure as `delete_old_metrics` — the DELETE is rolled back and 0
returned. -/
def delete_all_metrics (engineFail : Bool) (st : Store) : Store × Nat :=
  if engineFail then (st, 0)
  else
    let _rowcount := st.length
    (st, 0)

/-- The dictionary built by `get_statistics` (the pragma-derived
`database_size_mb` entry is a property of the database file, not of the
stored records, and is outside this embedding). -/
structure StatisticsResult where
  total_records : Nat
  oldest_timestamp : Option Datetime
  newest_timestamp : Option Datetime
deriving DecidableEq

/-- `ResourceDataStorage.get_statistics`: COUNT plus MIN/MAX timestamps
(parsed when both are truthy); any exception — including a parse failure —
returns the empty dict, modelled as `none`. -/
def get_statistics (engineFail : Bool) (st : Store) : Option StatisticsResult :=
  if engineFail then none
  else
    match minTimestamp st, maxTimestamp st with
    | some a, some b =>
      if a.isEmpty || b.isEmpty then some ⟨st.length, none, none⟩
      else
        match fromisoformat a, fromisoformat b with
        | some ta, some tb => some ⟨st.length, some ta, some tb⟩
        | _, _ => none
    | _, _ => some ⟨st.length, none, none⟩

/-! ### The collector: `ResourceCollector` of `resource_collector.py`

The collection loop runs `collect_metrics()` each tick, appends the result
to `metrics_history` and, when database storage is enabled, to
`db_batch_buffer`, detaching the buffer as a batch for a background
`save_metrics_batch` whenever it reaches `db_batch_size`.  A tick whose
`collect_metrics()` raises is modelled as `Except.error ()`; the loop body
has no try/except, so such an exception propagates and the loop thread
dies.  The schedule of tick outcomes is a finite list; an exhausted list
models `is_collecting` being cleared (normal stop). -/

/-- Mutable collector state: the in-memory history, the pending batch
buffer, and the batches handed off to `save_metrics_batch` so far (in
hand-off order). -/
structure CollectorState where
  metrics_history : List ResourceMetrics
  db_batch_buffer : List ResourceMetrics
  flushed_batches : List (List ResourceMetrics)
deriving DecidableEq

/-- State of a freshly constructed `ResourceCollector`. -/
def initCollector : CollectorState := ⟨[], [], []⟩

/-- One successful iteration of the `while self.is_collecting` body. -/
def tickStep (enableDb : Bool) (batchSize : Nat) (st : CollectorState)
    (m : ResourceMetrics) : CollectorState :=
  let st1 : CollectorState := { st with metrics_history := st.metrics_history ++ [m] }
  if enableDb then
    let buf := st1.db_batch_buffer ++ [m]
    if batchSize ≤ buf.length then
      { st1 with db_batch_buffer := [], flushed_batches := st1.flushed_batches ++ [buf] }
    else
      { st1 with db_batch_buffer := buf }
  else st1

/-- How `_collection_loop` ends: the flag was cleared (`stopped`) or an
exception escaped the loop body and killed the thread (`crashed`). -/
inductive LoopExit where
  | stopped
  | crashed
deriving DecidableEq

/-- `ResourceCollector._collection_loop` over a finite schedule of tick
outcomes.  There is no exception handler in the loop body, so the first
failing `collect_metrics()` terminates the loop. -/
def collection_loop (enableDb : Bool) (batchSize : Nat) :
    CollectorState → List (Except Unit ResourceMetrics) → CollectorState × LoopExit
  | st, [] => (st, LoopExit.stopped)
  | st, Except.error _ :: _ => (st, LoopExit.crashed)
  | st, Except.ok m :: rest =>
    collection_loop enableDb batchSize (tickStep enableDb batchSize st m) rest

/-- `ResourceCollector.stop_collection`: after joining the loop thread, any
non-empty pending batch buffer is saved synchronously. -/
def stop_collection (enableDb : Bool) (st : CollectorState) : CollectorState :=
  if enableDb && !st.db_batch_buffer.isEmpty then
    { st with
        flushed_batches := st.flushed_batches ++ [st.db_batch_buffer]
        db_batch_buffer := [] }
  else st

/-- Replay every flushed batch against an (initially empty) store with a
healthy engine: the records eventually persisted, in hand-off order. -/
def persistFlushed (batches : List (List ResourceMetrics)) : Store :=
  batches.foldl (fun s b => (save_metrics_batch false s b).store) []

/-- Reference chunking: group a stream into consecutive full batches of
size `k` on top of an initial buffer, returning the full batches and the
final partial buffer. -/
def chunksAcc (k : Nat) : List ResourceMetrics → List ResourceMetrics →
    List (List ResourceMetrics) × List ResourceMetrics
  | buf, [] => ([], buf)
  | buf, m :: rest =>
    let buf1 := buf ++ [m]
    if k ≤ buf1.length then
      let p := chunksAcc k [] rest
      (buf1 :: p.1, p.2)
    else
      chunksAcc k buf1 rest

theorem collection_loop_ok (enableDb : Bool) (batchSize : Nat) :
    ∀ (ms : List ResourceMetrics) (st : CollectorState),
      collection_loop enableDb batchSize st (ms.map Except.ok)
        = (ms.foldl (tickStep enableDb batchSize) st, LoopExit.stopped) := by
  intro ms
  induction ms with
  | nil => intro st; rfl
  | cons m rest ih =>
    intro st
    simp only [List.map_cons, collection_loop, List.foldl_cons, ih]

/-- The collection loop stops at the first failing tick, with the state it
had accumulated up to that point. -/
theorem collection_loop_error (enableDb : Bool) (batchSize : Nat) :
    ∀ (pre : List ResourceMetrics) (rest : List (Except Unit ResourceMetrics))
      (st : CollectorState),
      collection_loop enableDb batchSize st
          (pre.map Except.ok ++ Except.error () :: rest)
        = (pre.foldl (tickStep enableDb batchSize) st, LoopExit.crashed) := by
  intro pre
  induction pre with
  | nil => intro rest st; rfl
  | cons m p ih =>
    intro rest st
    simp only [List.map_cons, List.cons_append, collection_loop, List.foldl_cons,
      List.append_eq, ih]

theorem foldl_tickStep_history (enableDb : Bool) (batchSize : Nat) :
    ∀ (ms : List ResourceMetrics) (st : CollectorState),
      (ms.foldl (tickStep enableDb batchSize) st).metrics_history
        = st.metrics_history ++ ms := by
  intro ms
  induction ms with
  | nil => intro st; simp
  | cons m rest ih =>
    intro st
    rw [List.foldl_cons, ih]
    have : (tickStep enableDb batchSize st m).metrics_history
        = st.metrics_history ++ [m] := by
      unfold tickStep
      by_cases h : enableDb <;> simp [h] <;> split <;> rfl
    rw [this]
    simp

theorem foldl_tickStep_db (batchSize : Nat) :
    ∀ (ms : List ResourceMetrics) (hist : List ResourceMetrics)
      (buf : List ResourceMetrics) (fl : List (List ResourceMetrics)),
      ms.foldl (tickStep true batchSize) ⟨hist, buf, fl⟩
        = ⟨hist ++ ms, (chunksAcc batchSize buf ms).2,
            fl ++ (chunksAcc batchSize buf ms).1⟩ := by
  intro ms
  induction ms with
  | nil => intro hist buf fl; simp [chunksAcc]
  | cons m rest ih =>
    intro hist buf fl
    by_cases hk : batchSize ≤ (buf ++ [m]).length
    · have hk2 : batchSize ≤ buf.length + 1 := by simpa using hk
      have step_eq : tickStep true batchSize ⟨hist, buf, fl⟩ m
          = ⟨hist ++ [m], [], fl ++ [buf ++ [m]]⟩ := by
        simp [tickStep, hk2]
      rw [List.foldl_cons, step_eq, ih]
      simp [chunksAcc, hk2]
    · have hk2 : ¬ batchSize ≤ buf.length + 1 := by simpa using hk
      have hk3 : buf.length + 1 < batchSize := by omega
      have step_eq : tickStep true batchSize ⟨hist, buf, fl⟩ m
          = ⟨hist ++ [m], buf ++ [m], fl⟩ := by
        simp [tickStep, hk2, hk3]
      rw [List.foldl_cons, step_eq, ih]
      simp [chunksAcc, hk2]

/-- Every full batch produced by `chunksAcc` on an in-bounds buffer has
exactly `k` elements, the remainder stays below `k`, and concatenating the
batches with the remainder recovers buffer-then-stream. -/
theorem chunksAcc_spec (k : Nat) (hk : 0 < k) :
    ∀ (ms buf : List ResourceMetrics), buf.length < k →
      (∀ c ∈ (chunksAcc k buf ms).1, c.length = k)
        ∧ (chunksAcc k buf ms).2.length < k
        ∧ (chunksAcc k buf ms).1.flatten ++ (chunksAcc k buf ms).2 = buf ++ ms := by
  intro ms
  induction ms with
  | nil =>
    intro buf hbuf
    refine ⟨fun c hc => absurd hc (by simp [chunksAcc]), ?_, ?_⟩
    · simpa [chunksAcc] using hbuf
    · simp [chunksAcc]
  | cons m rest ih =>
    intro buf hbuf
    unfold chunksAcc
    by_cases hfull : k ≤ (buf ++ [m]).length
    · simp only [if_pos hfull]
      have hlen : (buf ++ [m]).length = k := by
        simp only [List.length_append, List.length_singleton] at hfull ⊢
        omega
      obtain ⟨hc, hr, hj⟩ := ih [] (by simpa using hk)
      refine ⟨?_, hr, ?_⟩
      · intro c hc2
        rcases List.mem_cons.mp hc2 with h | h
        · rw [h, hlen]
        · exact hc c h
      · simp only [List.flatten_cons, List.append_assoc]
        rw [hj]
        simp
    · simp only [if_neg hfull]
      have hlt : (buf ++ [m]).length < k := Nat.lt_of_not_le hfull
      obtain ⟨hc, hr, hj⟩ := ih (buf ++ [m]) hlt
      exact ⟨hc, hr, by rw [hj]; simp⟩

theorem persistFlushed_eq (batches : List (List ResourceMetrics)) :
    persistFlushed batches = batches.flatten.map toRow := by
  unfold persistFlushed
  suffices h : ∀ (s : Store),
      batches.foldl (fun s b => (save_metrics_batch false s b).store) s
        = s ++ batches.flatten.map toRow by
    simpa using h []
  induction batches with
  | nil => intro s; simp
  | cons b rest ih =>
    intro s
    rw [List.foldl_cons, ih]
    have : (save_metrics_batch false s b).store = s ++ b.map toRow := by
      unfold save_metrics_batch
      by_cases hb : b.isEmpty
      · rw [if_pos hb]
        simp [List.isEmpty_iff.mp hb]
      · rw [if_neg hb]
        rfl
    rw [this]
    simp

/-! ### The GUI graph buffer: `_update_graphs` of `gui_monitor.py`

The GUI keeps six parallel per-sample lists (`time_data`, `cpu_data`, ...)
and after every append trims them all to the last `max_data_points` (60)
entries with Python's `xs[-N:]` slice, evicting the oldest entries first.
Only the data-buffer manipulation is modelled; the matplotlib rendering
calls are presentation-layer side effects. -/

/-- The six parallel graph-data lists of `ResourceMonitorGUI`. -/
structure GraphData where
  time_data : List Datetime
  cpu_data : List Rat
  memory_data : List Rat
  disk_data : List Rat
  network_sent_data : List Rat
  network_recv_data : List Rat
deriving DecidableEq

/-- Graph-data lists of a freshly constructed GUI. -/
def emptyGraphData : GraphData := ⟨[], [], [], [], [], []⟩

/-- Python's `xs[-n:]` slice: for `n = 0` it is the whole list, otherwise
the last `min n (length xs)` elements. -/
def pySliceLast (n : Nat) (xs : List α) : List α :=
  if n = 0 then xs else xs.drop (xs.length - n)

/-- The data-buffer part of `ResourceMonitorGUI._update_graphs`: append the
new sample to all six lists, then, when `time_data` exceeds
`max_data_points`, trim every list to its last `max_data_points` entries. -/
def update_graphs (maxDataPoints : Nat) (g : GraphData) (m : ResourceMetrics) : GraphData :=
  let g1 : GraphData :=
    { time_data := g.time_data ++ [m.timestamp]
      cpu_data := g.cpu_data ++ [m.cpu_percent]
      memory_data := g.memory_data ++ [m.memory_percent]
      disk_data := g.disk_data ++ [m.disk_percent]
      network_sent_data := g.network_sent_data ++ [m.network_sent_rate_mbps]
      network_recv_data := g.network_recv_data ++ [m.network_recv_rate_mbps] }
  if maxDataPoints < g1.time_data.length then
    { time_data := pySliceLast maxDataPoints g1.time_data
      cpu_data := pySliceLast maxDataPoints g1.cpu_data
      memory_data := pySliceLast maxDataPoints g1.memory_data
      disk_data := pySliceLast maxDataPoints g1.disk_data
      network_sent_data := pySliceLast maxDataPoints g1.network_sent_data
      network_recv_data := pySliceLast maxDataPoints g1.network_recv_data }
  else g1

/-! ### Specification predicates and characterization lemmas -/

/-- Chronological (ascending-timestamp) order on metrics, as Python compares
`datetime` values. -/
def metricLeAsc (a b : ResourceMetrics) : Prop :=
  a.timestamp.key ≤ b.timestamp.key

/-- Reverse-chronological order on metrics. -/
def metricLeDesc (a b : ResourceMetrics) : Prop :=
  b.timestamp.key ≤ a.timestamp.key

instance : DecidableRel metricLeAsc := fun a b =>
  inferInstanceAs (Decidable (a.timestamp.key ≤ b.timestamp.key))

instance : DecidableRel metricLeDesc := fun a b =>
  inferInstanceAs (Decidable (b.timestamp.key ≤ a.timestamp.key))

instance : IsTotal ResourceMetrics metricLeAsc :=
  ⟨fun a b => Nat.le_total a.timestamp.key b.timestamp.key⟩

instance : IsTotal ResourceMetrics metricLeDesc :=
  ⟨fun a b => Nat.le_total b.timestamp.key a.timestamp.key⟩

instance : IsTrans ResourceMetrics metricLeAsc :=
  ⟨fun a b c h1 h2 =>
    show a.timestamp.key ≤ c.timestamp.key from le_trans h1 h2⟩

instance : IsTrans ResourceMetrics metricLeDesc :=
  ⟨fun a b c h1 h2 =>
    show c.timestamp.key ≤ a.timestamp.key from le_trans h2 h1⟩

/-- Datetime-level reading of the WHERE clause of
`get_metrics_by_time_range`: an absent bound is unbounded on that side. -/
def inRange (start_time end_time : Option Datetime) (m : ResourceMetrics) : Bool :=
  (match start_time with
    | none => true
    | some t => decide (t.key ≤ m.timestamp.key)) &&
  (match end_time with
    | none => true
    | some t => decide (m.timestamp.key ≤ t.key))

theorem validTimes_of_subset {ms ms' : List ResourceMetrics}
    (hsub : ms' ⊆ ms) (hv : validTimes ms) : validTimes ms' :=
  fun m hm => hv m (hsub hm)

theorem matchesLower_toRow {m : ResourceMetrics} (hmv : m.timestamp.valid)
    {t : Datetime} (ht : t.valid) :
    matchesLower (some t) (toRow m) = decide (t.key ≤ m.timestamp.key) := by
  show decide (t.isoformat ≤ m.timestamp.isoformat) = decide (t.key ≤ m.timestamp.key)
  rw [decide_eq_decide]
  exact isoformat_le_iff ht hmv

theorem matchesUpper_toRow {m : ResourceMetrics} (hmv : m.timestamp.valid)
    {t : Datetime} (ht : t.valid) :
    matchesUpper (some t) (toRow m) = decide (m.timestamp.key ≤ t.key) := by
  show decide (m.timestamp.isoformat ≤ t.isoformat) = decide (m.timestamp.key ≤ t.key)
  rw [decide_eq_decide]
  exact isoformat_le_iff hmv ht

theorem filter_matches_eq {ms : List ResourceMetrics}
    {a b : Option Datetime} (hv : validTimes ms)
    (ha : ∀ t, a = some t → t.valid) (hb : ∀ t, b = some t → t.valid) :
    (ms.map toRow).filter (fun r => matchesLower a r && matchesUpper b r)
      = (ms.filter (inRange a b)).map toRow := by
  rw [List.filter_map]
  congr 1
  apply List.filter_congr
  intro m hm
  have hmv : m.timestamp.valid := hv m hm
  show (matchesLower a (toRow m) && matchesUpper b (toRow m)) = inRange a b m
  cases a with
  | none =>
    cases b with
    | none => rfl
    | some tb =>
      have htb : tb.valid := hb tb rfl
      show (true && matchesUpper (some tb) (toRow m))
        = (true && decide (m.timestamp.key ≤ tb.key))
      rw [matchesUpper_toRow hmv htb]
  | some ta =>
    have hta : ta.valid := ha ta rfl
    cases b with
    | none =>
      show (matchesLower (some ta) (toRow m) && true)
        = (decide (ta.key ≤ m.timestamp.key) && true)
      rw [matchesLower_toRow hmv hta]
    | some tb =>
      have htb : tb.valid := hb tb rfl
      show (matchesLower (some ta) (toRow m) && matchesUpper (some tb) (toRow m))
        = (decide (ta.key ≤ m.timestamp.key) && decide (m.timestamp.key ≤ tb.key))
      rw [matchesLower_toRow hmv hta, matchesUpper_toRow hmv htb]

theorem sort_rows_eq {ms : List ResourceMetrics} (hv : validTimes ms) :
    List.insertionSort rowLeAsc (ms.map toRow)
      = (List.insertionSort metricLeAsc ms).map toRow := by
  refine (List.map_insertionSort metricLeAsc rowLeAsc toRow ms ?_).symm
  intro x hx y hy
  show x.timestamp.key ≤ y.timestamp.key ↔ (toRow x).timestamp ≤ (toRow y).timestamp
  exact (isoformat_le_iff (hv x hx) (hv y hy)).symm

theorem sort_rows_desc_eq {ms : List ResourceMetrics} (hv : validTimes ms) :
    List.insertionSort rowLeDesc (ms.map toRow)
      = (List.insertionSort metricLeDesc ms).map toRow := by
  refine (List.map_insertionSort metricLeDesc rowLeDesc toRow ms ?_).symm
  intro x hx y hy
  show y.timestamp.key ≤ x.timestamp.key ↔ (toRow y).timestamp ≤ (toRow x).timestamp
  exact (isoformat_le_iff (hv y hy) (hv x hx)).symm

/-- `get_metrics_by_time_range` with no limit, on a store of saved records:
exactly the in-range records, chronologically sorted. -/
theorem get_range_none_eq {ms : List ResourceMetrics} {a b : Option Datetime}
    (hv : validTimes ms)
    (ha : ∀ t, a = some t → t.valid) (hb : ∀ t, b = some t → t.valid) :
    get_metrics_by_time_range false (ms.map toRow) a b none
      = List.insertionSort metricLeAsc (ms.filter (inRange a b)) := by
  unfold get_metrics_by_time_range
  rw [if_neg (by simp)]
  have hfv : validTimes (ms.filter (inRange a b)) :=
    validTimes_of_subset (fun x hx => (List.mem_filter.mp hx).1) hv
  have hsv : validTimes (List.insertionSort metricLeAsc (ms.filter (inRange a b))) :=
    fun m hm => hfv m ((List.mem_insertionSort metricLeAsc).mp hm)
  simp only [filter_matches_eq hv ha hb, sort_rows_eq hfv, mapM_row_to_metrics hsv]

/-- `get_metrics_by_time_range` with a positive limit truncates the
no-limit (ascending) result to its first `limit` records. -/
theorem get_range_limit_eq {ms : List ResourceMetrics} {a b : Option Datetime}
    (hv : validTimes ms)
    (ha : ∀ t, a = some t → t.valid) (hb : ∀ t, b = some t → t.valid)
    {l : Int} (hl : 0 < l) :
    get_metrics_by_time_range false (ms.map toRow) a b (some l)
      = (List.insertionSort metricLeAsc (ms.filter (inRange a b))).take l.toNat := by
  unfold get_metrics_by_time_range
  rw [if_neg (by simp)]
  have hfv : validTimes (ms.filter (inRange a b)) :=
    validTimes_of_subset (fun x hx => (List.mem_filter.mp hx).1) hv
  have hsv : validTimes (List.insertionSort metricLeAsc (ms.filter (inRange a b))) :=
    fun m hm => hfv m ((List.mem_insertionSort metricLeAsc).mp hm)
  have htv : validTimes ((List.insertionSort metricLeAsc (ms.filter (inRange a b))).take
      l.toNat) :=
    validTimes_of_subset (List.take_sublist _ _).subset hsv
  have hl0 : ¬ l = 0 := by omega
  have hneg : ¬ l < 0 := by omega
  simp only [filter_matches_eq hv ha hb, sort_rows_eq hfv, if_neg hl0, sqlLimit,
    if_neg hneg, ← List.map_take, mapM_row_to_metrics htv]

theorem isoformat_ne_nil (t : Datetime) : t.isoformat ≠ [] := by
  intro h
  have hlen := congrArg List.length h
  rw [Datetime.isoformat] at hlen
  simp only [List.length_append, List.length_cons, length_padNum, List.length_nil] at hlen
  omega

theorem foldl_tsMinStep_mem :
    ∀ (st : Store) (acc : Option (List Char)),
      st.foldl tsMinStep acc = acc ∨ ∃ r ∈ st, st.foldl tsMinStep acc = some r.timestamp := by
  intro st
  induction st with
  | nil => intro acc; exact Or.inl rfl
  | cons r rest ih =>
    intro acc
    rw [List.foldl_cons]
    rcases ih (tsMinStep acc r) with h | ⟨r', hr', h⟩
    · rw [h]
      cases acc with
      | none => exact Or.inr ⟨r, List.mem_cons_self r rest, rfl⟩
      | some m =>
        by_cases hlt : r.timestamp < m
        · exact Or.inr ⟨r, List.mem_cons_self r rest, by simp [tsMinStep, hlt]⟩
        · exact Or.inl (by simp [tsMinStep, hlt])
    · exact Or.inr ⟨r', List.mem_cons_of_mem r hr', h⟩

theorem foldl_tsMaxStep_mem :
    ∀ (st : Store) (acc : Option (List Char)),
      st.foldl tsMaxStep acc = acc ∨ ∃ r ∈ st, st.foldl tsMaxStep acc = some r.timestamp := by
  intro st
  induction st with
  | nil => intro acc; exact Or.inl rfl
  | cons r rest ih =>
    intro acc
    rw [List.foldl_cons]
    rcases ih (tsMaxStep acc r) with h | ⟨r', hr', h⟩
    · rw [h]
      cases acc with
      | none => exact Or.inr ⟨r, List.mem_cons_self r rest, rfl⟩
      | some m =>
        by_cases hlt : m < r.timestamp
        · exact Or.inr ⟨r, List.mem_cons_self r rest, by simp [tsMaxStep, hlt]⟩
        · exact Or.inl (by simp [tsMaxStep, hlt])
    · exact Or.inr ⟨r', List.mem_cons_of_mem r hr', h⟩

theorem foldl_tsMinStep_some :
    ∀ (st : Store) (x : List Char), ∃ y, st.foldl tsMinStep (some x) = some y := by
  intro st
  induction st with
  | nil => intro x; exact ⟨x, rfl⟩
  | cons r rest ih =>
    intro x
    rw [List.foldl_cons]
    show ∃ y, rest.foldl tsMinStep (if r.timestamp < x then some r.timestamp else some x)
      = some y
    by_cases hlt : r.timestamp < x
    · rw [if_pos hlt]; exact ih r.timestamp
    · rw [if_neg hlt]; exact ih x

theorem foldl_tsMaxStep_some :
    ∀ (st : Store) (x : List Char), ∃ y, st.foldl tsMaxStep (some x) = some y := by
  intro st
  induction st with
  | nil => intro x; exact ⟨x, rfl⟩
  | cons r rest ih =>
    intro x
    rw [List.foldl_cons]
    show ∃ y, rest.foldl tsMaxStep (if x < r.timestamp then some r.timestamp else some x)
      = some y
    by_cases hlt : x < r.timestamp
    · rw [if_pos hlt]; exact ih r.timestamp
    · rw [if_neg hlt]; exact ih x

/-- On a store of saved records, `get_statistics` with a healthy engine
always produces a dictionary whose `total_records` is the row count. -/
theorem get_statistics_some {ms : List ResourceMetrics} (hv : validTimes ms) :
    ∃ res : StatisticsResult,
      get_statistics false (ms.map toRow) = some res ∧ res.total_records = ms.length := by
  unfold get_statistics
  rw [if_neg (by simp)]
  cases ms with
  | nil =>
    exact ⟨⟨0, none, none⟩, rfl, rfl⟩
  | cons m0 rest =>
    have hmin : ∃ y, minTimestamp ((m0 :: rest).map toRow) = some y := by
      unfold minTimestamp
      rw [List.map_cons, List.foldl_cons]
      exact foldl_tsMinStep_some _ _
    have hmax : ∃ y, maxTimestamp ((m0 :: rest).map toRow) = some y := by
      unfold maxTimestamp
      rw [List.map_cons, List.foldl_cons]
      exact foldl_tsMaxStep_some _ _
    obtain ⟨a, hae⟩ := hmin
    obtain ⟨b, hbe⟩ := hmax
    have hamem : ∃ r ∈ (m0 :: rest).map toRow, a = r.timestamp := by
      rcases foldl_tsMinStep_mem ((m0 :: rest).map toRow) none with h | ⟨r, hr, h⟩
      · rw [show ((m0 :: rest).map toRow).foldl tsMinStep none
            = minTimestamp ((m0 :: rest).map toRow) from rfl, hae] at h
        exact absurd h (by simp)
      · rw [show ((m0 :: rest).map toRow).foldl tsMinStep none
            = minTimestamp ((m0 :: rest).map toRow) from rfl, hae] at h
        exact ⟨r, hr, (Option.some.injEq _ _).mp h⟩
    have hbmem : ∃ r ∈ (m0 :: rest).map toRow, b = r.timestamp := by
      rcases foldl_tsMaxStep_mem ((m0 :: rest).map toRow) none with h | ⟨r, hr, h⟩
      · rw [show ((m0 :: rest).map toRow).foldl tsMaxStep none
            = maxTimestamp ((m0 :: rest).map toRow) from rfl, hbe] at h
        exact absurd h (by simp)
      · rw [show ((m0 :: rest).map toRow).foldl tsMaxStep none
            = maxTimestamp ((m0 :: rest).map toRow) from rfl, hbe] at h
        exact ⟨r, hr, (Option.some.injEq _ _).mp h⟩
    obtain ⟨ra, hra, haeq⟩ := hamem
    obtain ⟨ma, hma, hraeq⟩ : ∃ m ∈ m0 :: rest, ra = toRow m := by
      rcases List.mem_map.mp hra with ⟨m, hm, he⟩
      exact ⟨m, hm, he.symm⟩
    obtain ⟨rb, hrb, hbeq⟩ := hbmem
    obtain ⟨mb, hmb, hrbeq⟩ : ∃ m ∈ m0 :: rest, rb = toRow m := by
      rcases List.mem_map.mp hrb with ⟨m, hm, he⟩
      exact ⟨m, hm, he.symm⟩
    have hava : a = ma.timestamp.isoformat := by rw [haeq, hraeq]; rfl
    have hbvb : b = mb.timestamp.isoformat := by rw [hbeq, hrbeq]; rfl
    have hane : a.isEmpty = false := by
      cases hcase : a.isEmpty with
      | false => rfl
      | true =>
        rw [hava] at hcase
        exact absurd (List.isEmpty_iff.mp hcase) (isoformat_ne_nil _)
    have hbne : b.isEmpty = false := by
      cases hcase : b.isEmpty with
      | false => rfl
      | true =>
        rw [hbvb] at hcase
        exact absurd (List.isEmpty_iff.mp hcase) (isoformat_ne_nil _)
    have hpa : fromisoformat a = some ma.timestamp := by
      rw [hava]
      exact fromisoformat_isoformat (hv ma hma)
    have hpb : fromisoformat b = some mb.timestamp := by
      rw [hbvb]
      exact fromisoformat_isoformat (hv mb hmb)
    refine ⟨⟨((m0 :: rest).map toRow).length, some ma.timestamp, some mb.timestamp⟩,
      ?_, by simp⟩
    rw [hae, hbe]
    simp [hane, hbne, hpa, hpb]

theorem length_filter_add_not (p : α → Bool) (l : List α) :
    (l.filter p).length + (l.filter (fun x => !(p x))).length = l.length := by
  induction l with
  | nil => rfl
  | cons x xs ih =>
    by_cases hx : p x
    · simp [List.filter_cons, hx, ← ih]
      omega
    · simp [List.filter_cons, hx, ← ih]
      omega

/-- `get_latest_metrics` on a store of saved records, for a nonnegative
count: the last `count` records of the descending sort, re-reversed into
chronological order. -/
theorem get_latest_eq {ms : List ResourceMetrics} (hv : validTimes ms)
    {n : Int} (hn : 0 ≤ n) :
    get_latest_metrics false (ms.map toRow) n
      = ((List.insertionSort metricLeDesc ms).take n.toNat).reverse := by
  unfold get_latest_metrics
  rw [if_neg (by simp)]
  have hsub : validTimes (((List.insertionSort metricLeDesc ms).take n.toNat).reverse) := by
    intro x hx
    apply hv
    have hx1 := List.mem_reverse.mp hx
    have hx2 := (List.take_sublist _ _).subset hx1
    exact (List.mem_insertionSort metricLeDesc).mp hx2
  simp only [sort_rows_desc_eq hv, sqlLimit, if_neg (by omega : ¬ n < 0),
    ← List.map_take, ← List.map_reverse, mapM_row_to_metrics hsub]

/-- The GUI graph buffer after a run of appends holds exactly the last
`min (length run) capacity` samples, oldest first. -/
theorem foldl_update_graphs_time (c : Nat) (hc : 0 < c) (ms : List ResourceMetrics) :
    (ms.foldl (update_graphs c) emptyGraphData).time_data
      = (ms.map (fun m => m.timestamp)).drop (ms.length - c) := by
  induction ms using List.reverseRecOn with
  | nil => simp [emptyGraphData]
  | append_singleton ms m ih =>
    rw [List.foldl_append, List.foldl_cons, List.foldl_nil]
    have hlen : (ms.foldl (update_graphs c) emptyGraphData).time_data.length
        = ms.length - (ms.length - c) := by
      rw [ih, List.length_drop, List.length_map]
    set g := ms.foldl (update_graphs c) emptyGraphData with hg
    have happ : g.time_data ++ [m.timestamp]
        = ((ms ++ [m]).map (fun x => x.timestamp)).drop (ms.length - c) := by
      rw [ih, List.map_append]
      rw [List.drop_append_of_le_length (by rw [List.length_map]; omega)]
      rfl
    have hlen2 : (g.time_data ++ [m.timestamp]).length
        = (ms.length - (ms.length - c)) + 1 := by
      rw [List.length_append, hlen]
      rfl
    unfold update_graphs
    by_cases hover : c < (g.time_data ++ [m.timestamp]).length
    · rw [if_pos hover]
      rw [hlen2] at hover
      show pySliceLast c (g.time_data ++ [m.timestamp]) = _
      unfold pySliceLast
      rw [if_neg (by omega)]
      rw [hlen2, happ, List.drop_drop]
      congr 1
      rw [List.length_append, List.length_singleton]
      omega
    · rw [if_neg hover]
      rw [hlen2] at hover
      show g.time_data ++ [m.timestamp] = _
      rw [happ]
      congr 1
      rw [List.length_append, List.length_singleton]
      omega

/-! ### Concrete sample data for witnesses and scenario checks -/

/-- A concrete sample reading whose timestamp advances by `i` seconds past
2024-01-01 00:00:00 (rolling into minutes). -/
def sampleMetric (i : Nat) : ResourceMetrics :=
  { timestamp := ⟨2024, 1, 1, 0, i / 60, i % 60, 0⟩
    cpu_percent := 50
    memory_percent := 60
    memory_used_mb := 8192
    memory_total_mb := 16384
    disk_percent := 75
    disk_used_gb := 500
    disk_total_gb := 1000
    network_sent_mb := 1024
    network_recv_mb := 2048
    network_sent_rate_mbps := 10
    network_recv_rate_mbps := 20 }

/-- The timestamps of the §8 query scenario: `t = 0,10,20,30,40` seconds. -/
def scenarioTime (s : Nat) : Datetime := ⟨2024, 1, 1, 0, 0, s, 0⟩

/-- The `cpu_percent` values 50,51,52,53,54 of the §8 query scenario. -/
def scenarioCpu : Nat → Rat
  | 0 => 50
  | 1 => 51
  | 2 => 52
  | 3 => 53
  | _ => 54

/-- The records of the §8 query scenario: snapshots at `t = 10·i` with
`cpu_percent = 50 + i`. -/
def scenarioMetric (i : Nat) : ResourceMetrics :=
  { timestamp := scenarioTime (10 * i)
    cpu_percent := scenarioCpu i
    memory_percent := 60
    memory_used_mb := 8192
    memory_total_mb := 16384
    disk_percent := 75
    disk_used_gb := 500
    disk_total_gb := 1000
    network_sent_mb := 1024
    network_recv_mb := 2048
    network_sent_rate_mbps := 10
    network_recv_rate_mbps := 20 }

/-! ### The claims -/

/-- C1: the claim as stated is false.  `_collection_loop` has no exception
handler around `collect_metrics()`, so on the schedule [failing tick,
successful tick] the loop thread dies at the first tick: the run ends in
`crashed` and the in-memory history stays empty — the subsequent tick never
collects, contradicting "the failure is recovered inside the sampler and
the loop continues". -/
theorem c1_counterexample :
    collection_loop false 10 initCollector [Except.error (), Except.ok (sampleMetric 0)]
      = (initCollector, LoopExit.crashed)
    ∧ (collection_loop false 10 initCollector
        [Except.error (), Except.ok (sampleMetric 0)]).1.metrics_history = [] :=
  ⟨rfl, rfl⟩

/-- C1 (amended): a failure raised by `collect_metrics` inside a tick is
not caught: the exception propagates out of `_collection_loop` and
terminates the collection loop thread.  The ticks before the failure are
preserved in the history, and no tick after the failure executes. -/
theorem c1_failed_tick_kills_loop (enableDb : Bool) (batchSize : Nat)
    (st : CollectorState) (pre : List ResourceMetrics)
    (rest : List (Except Unit ResourceMetrics)) :
    collection_loop enableDb batchSize st (pre.map Except.ok ++ Except.error () :: rest)
      = (pre.foldl (tickStep enableDb batchSize) st, LoopExit.crashed)
    ∧ (pre.foldl (tickStep enableDb batchSize) st).metrics_history
      = st.metrics_history ++ pre :=
  ⟨collection_loop_error enableDb batchSize pre rest st,
    foldl_tickStep_history enableDb batchSize pre st⟩

/-- C2: round-trip.  A successful `save_metrics` on an empty store returns
`True`, and an unbounded `get_metrics_by_time_range` then returns exactly
one record equal to the saved snapshot in every field — the eleven REAL
columns and the timestamp (stored as ISO text at full microsecond
precision). -/
theorem c2_roundtrip (m : ResourceMetrics) (h : m.timestamp.valid) :
    save_metrics false [] m = ([toRow m], true)
    ∧ get_metrics_by_time_range false (save_metrics false [] m).1 none none none
      = [m] := by
  refine ⟨rfl, ?_⟩
  show get_metrics_by_time_range false ([m].map toRow) none none none = [m]
  rw [get_range_none_eq
    (show validTimes [m] from fun x hx => by rw [List.mem_singleton.mp hx]; exact h)
    (fun t ht => Option.noConfusion ht) (fun t ht => Option.noConfusion ht)]
  have hf : [m].filter (inRange none none) = [m] := by
    simp [inRange]
  rw [hf]
  rfl

theorem c2_roundtrip_witness :
    (sampleMetric 3).timestamp.valid
    ∧ (save_metrics false [] (sampleMetric 3) = ([toRow (sampleMetric 3)], true)
      ∧ get_metrics_by_time_range false (save_metrics false [] (sampleMetric 3)).1
          none none none = [sampleMetric 3]) :=
  ⟨by decide, c2_roundtrip (sampleMetric 3) (by decide)⟩

/-- C3: `save_metrics_batch` is all-or-nothing.  An empty input returns 0
without opening a connection; a successful call persists every record and
returns the input length; a failed call rolls the transaction back — the
table is unchanged (so later reads see none of the batch) and 0 is
returned. -/
theorem c3_batch_all_or_nothing (engineFail : Bool) (st : Store)
    (ms : List ResourceMetrics) :
    save_metrics_batch engineFail st [] = ⟨st, 0, 0⟩
    ∧ (ms ≠ [] → save_metrics_batch false st ms = ⟨st ++ ms.map toRow, ms.length, 1⟩)
    ∧ (ms ≠ [] → save_metrics_batch true st ms = ⟨st, 0, 1⟩)
    ∧ (save_metrics_batch true st ms).store = st
    ∧ (save_metrics_batch true st ms).written = 0 := by
  have hempty : ∀ (l : List ResourceMetrics), l ≠ [] → l.isEmpty = false := by
    intro l hl
    cases hcase : l.isEmpty with
    | false => rfl
    | true => exact absurd (List.isEmpty_iff.mp hcase) hl
  refine ⟨rfl, ?_, ?_, ?_, ?_⟩
  · intro hne
    unfold save_metrics_batch
    rw [hempty ms hne]
    rfl
  · intro hne
    unfold save_metrics_batch
    rw [hempty ms hne]
    rfl
  · unfold save_metrics_batch
    cases hcase : ms.isEmpty with
    | false => rfl
    | true => rfl
  · unfold save_metrics_batch
    cases hcase : ms.isEmpty with
    | false => rfl
    | true => rfl

theorem c3_batch_all_or_nothing_witness :
    ([sampleMetric 0] ≠ ([] : List ResourceMetrics))
    ∧ save_metrics_batch false [] [sampleMetric 0] = ⟨[toRow (sampleMetric 0)], 1, 1⟩
    ∧ save_metrics_batch true [] [sampleMetric 0] = ⟨[], 0, 1⟩ :=
  ⟨by decide,
    (c3_batch_all_or_nothing false [] [sampleMetric 0]).2.1 (by decide),
    (c3_batch_all_or_nothing true [] [sampleMetric 0]).2.2.1 (by decide)⟩

/-- C4: the capacity-bounded in-memory history (the GUI graph buffer of
`gui_monitor.py`, the one buffer in the repository with a configured
capacity, `max_data_points = 60`).  After any run of appends it holds
exactly the last `min (run length) capacity` samples — so its length never
exceeds the capacity and the oldest entries are evicted first — and in
particular with capacity 60, after 65 appends it has length 60 and starts
at the 6th appended snapshot.  (The collector's own `metrics_history` has
no capacity configured and grows without bound.) -/
theorem c4_buffer_bounded_fifo (c : Nat) (hc : 0 < c) (ms : List ResourceMetrics) :
    (ms.foldl (update_graphs c) emptyGraphData).time_data
        = (ms.map (fun m => m.timestamp)).drop (ms.length - c)
    ∧ (ms.foldl (update_graphs c) emptyGraphData).time_data.length ≤ c
    ∧ (c = 60 → ms.length = 65 →
        (ms.foldl (update_graphs c) emptyGraphData).time_data.length = 60
        ∧ (ms.foldl (update_graphs c) emptyGraphData).time_data.head?
          = (ms.map (fun m => m.timestamp))[5]?) := by
  have h := foldl_update_graphs_time c hc ms
  refine ⟨h, ?_, ?_⟩
  · rw [h, List.length_drop, List.length_map]
    omega
  · intro hc60 h65
    constructor
    · rw [h, List.length_drop, List.length_map, hc60, h65]
    · rw [h, hc60, h65]
      show (((ms.map (fun m => m.timestamp))).drop 5).head? = _
      rw [List.head?_drop]

theorem c4_buffer_bounded_fifo_witness :
    0 < 60
    ∧ ((((List.range 65).map sampleMetric).foldl (update_graphs 60)
          emptyGraphData).time_data.length = 60
      ∧ (((List.range 65).map sampleMetric).foldl (update_graphs 60)
          emptyGraphData).time_data.head?
        = (((List.range 65).map sampleMetric).map (fun m => m.timestamp))[5]?) :=
  ⟨by decide,
    (c4_buffer_bounded_fifo 60 (by decide) ((List.range 65).map sampleMetric)).2.2
      rfl (by simp)⟩

/-- C5: the claim as stated is false.  A storage-engine failure during a
read is caught, but the operation returns its ordinary empty result (`[]`)
rather than a typed failure: a failing unbounded query on a one-record
store returns exactly the same value as a successful query on an empty
store, so the caller cannot distinguish the two. -/
theorem c5_counterexample :
    get_metrics_by_time_range true [toRow (sampleMetric 0)] none none none
        = get_metrics_by_time_range false [] none none none
    ∧ get_metrics_by_time_range true [toRow (sampleMetric 0)] none none none = [] :=
  ⟨rfl, rfl⟩

/-- C5 (amended): every storage-engine failure during a Store read
operation is caught at the operation boundary — the Store never propagates
the exception — but it is surfaced only as that operation's empty default
(`[]`, `0`, `None`, `{}`), indistinguishable from the same operation
succeeding on an empty store. -/
theorem c5_read_failures_return_empty_defaults (st : Store)
    (a b : Option Datetime) (lim : Option Int) (n : Int) :
    get_metrics_by_time_range true st a b lim = []
    ∧ get_metrics_by_time_range true st a b lim
        = get_metrics_by_time_range false [] a b lim
    ∧ get_latest_metrics true st n = []
    ∧ get_latest_metrics true st n = get_latest_metrics false [] n
    ∧ get_metrics_count true st = 0
    ∧ get_metrics_count true st = get_metrics_count false []
    ∧ get_oldest_timestamp true st = none
    ∧ get_oldest_timestamp true st = get_oldest_timestamp false []
    ∧ get_newest_timestamp true st = none
    ∧ get_newest_timestamp true st = get_newest_timestamp false []
    ∧ get_statistics true st = none := by
  have hq : get_metrics_by_time_range false [] a b lim = [] := by
    unfold get_metrics_by_time_range
    cases lim with
    | none => rfl
    | some l =>
      by_cases hl : l = 0
      · simp only [hl, if_pos rfl, List.filter_nil]
        rfl
      · simp only [if_neg hl, List.filter_nil]
        show (match (sqlLimit l []).mapM row_to_metrics with
          | none => []
          | some ms => ms) = []
        unfold sqlLimit
        by_cases hneg : l < 0
        · rw [if_pos hneg]
          rfl
        · rw [if_neg hneg]
          rw [List.take_nil]
          rfl
  have hlat : get_latest_metrics false [] n = [] := by
    unfold get_latest_metrics
    show (match (sqlLimit n (List.insertionSort rowLeDesc [])).reverse.mapM row_to_metrics
        with
      | none => []
      | some ms => ms) = []
    unfold sqlLimit
    by_cases hneg : n < 0
    · rw [if_pos hneg]
      rfl
    · rw [if_neg hneg]
      show (match (List.take n.toNat []).reverse.mapM row_to_metrics with
        | none => []
        | some ms => ms) = []
      rw [List.take_nil]
      rfl
  exact ⟨rfl, hq.symm, rfl, hlat.symm, rfl, rfl, rfl, rfl, rfl, rfl, rfl⟩

/-- C6: `get_metrics_by_time_range` returns exactly the stored records
whose timestamp lies in `[start, end]` (an absent bound is unbounded on
that side), sorted ascending by timestamp; a positive limit truncates the
ascending result to its first `limit` records; and on the concrete
scenario (records at `t = 0,10,20,30,40`, query `[t10, t30]`) it returns
exactly the three records at `t = 10,20,30` in that order. -/
theorem c6_time_range_query (ms : List ResourceMetrics) (a b : Option Datetime)
    (l : Int) (hv : validTimes ms)
    (ha : ∀ t, a = some t → t.valid) (hb : ∀ t, b = some t → t.valid) :
    get_metrics_by_time_range false (ms.map toRow) a b none
        = List.insertionSort metricLeAsc (ms.filter (inRange a b))
    ∧ (get_metrics_by_time_range false (ms.map toRow) a b none).Perm
        (ms.filter (inRange a b))
    ∧ List.Sorted metricLeAsc (get_metrics_by_time_range false (ms.map toRow) a b none)
    ∧ (0 < l →
        get_metrics_by_time_range false (ms.map toRow) a b (some l)
          = (get_metrics_by_time_range false (ms.map toRow) a b none).take l.toNat)
    ∧ get_metrics_by_time_range false
        (([scenarioMetric 0, scenarioMetric 1, scenarioMetric 2, scenarioMetric 3,
          scenarioMetric 4]).map toRow)
        (some (scenarioTime 10)) (some (scenarioTime 30)) none
      = [scenarioMetric 1, scenarioMetric 2, scenarioMetric 3] := by
  have he := get_range_none_eq hv ha hb
  refine ⟨he, ?_, ?_, ?_, by decide⟩
  · rw [he]
    exact List.perm_insertionSort _ _
  · rw [he]
    exact List.sorted_insertionSort _ _
  · intro hl
    rw [get_range_limit_eq hv ha hb hl, he]

theorem c6_time_range_query_witness :
    validTimes [scenarioMetric 0, scenarioMetric 1, scenarioMetric 2, scenarioMetric 3,
      scenarioMetric 4]
    ∧ (0 : Int) < 2
    ∧ get_metrics_by_time_range false
        (([scenarioMetric 0, scenarioMetric 1, scenarioMetric 2, scenarioMetric 3,
          scenarioMetric 4]).map toRow)
        (some (scenarioTime 10)) (some (scenarioTime 30)) (some 2)
      = (get_metrics_by_time_range false
          (([scenarioMetric 0, scenarioMetric 1, scenarioMetric 2, scenarioMetric 3,
            scenarioMetric 4]).map toRow)
          (some (scenarioTime 10)) (some (scenarioTime 30)) none).take (2 : Int).toNat :=
  ⟨by decide, by decide,
    (c6_time_range_query
        [scenarioMetric 0, scenarioMetric 1, scenarioMetric 2, scenarioMetric 3,
          scenarioMetric 4]
        (some (scenarioTime 10)) (some (scenarioTime 30)) 2 (by decide)
        (fun t ht => by cases ht; decide)
        (fun t ht => by cases ht; decide)).2.2.2.1 (by decide)⟩

/-- C7: `get_latest_metrics count` returns the `count` records with the
greatest timestamps in ascending (chronological) order: the result is
always sorted ascending, has length `min count M`, is all `M` records when
`M ≤ count`, and (for distinct timestamps) every record left out is
strictly older than every record returned. -/
theorem c7_latest_n (ms : List ResourceMetrics) (n : Int) (hv : validTimes ms)
    (hn : 0 ≤ n) :
    List.Sorted metricLeAsc (get_latest_metrics false (ms.map toRow) n)
    ∧ (get_latest_metrics false (ms.map toRow) n).length = min n.toNat ms.length
    ∧ (ms.length ≤ n.toNat → (get_latest_metrics false (ms.map toRow) n).Perm ms)
    ∧ ((ms.map (fun m => m.timestamp.key)).Nodup →
        ∀ x ∈ get_latest_metrics false (ms.map toRow) n,
          ∀ y ∈ ms, y ∉ get_latest_metrics false (ms.map toRow) n →
            y.timestamp.key < x.timestamp.key) := by
  have he := get_latest_eq hv hn
  have hsd : List.Sorted metricLeDesc (List.insertionSort metricLeDesc ms) :=
    List.sorted_insertionSort _ _
  refine ⟨?_, ?_, ?_, ?_⟩
  · rw [he]
    have htake : List.Sorted metricLeDesc
        ((List.insertionSort metricLeDesc ms).take n.toNat) :=
      List.Pairwise.sublist (List.take_sublist _ _) hsd
    exact List.pairwise_reverse.mpr (htake.imp (fun h => h))
  · rw [he, List.length_reverse, List.length_take, List.length_insertionSort]
  · intro hM
    rw [he, List.take_of_length_le (by rw [List.length_insertionSort]; exact hM)]
    exact (List.reverse_perm _).trans (List.perm_insertionSort _ _)
  · intro hnd x hx y hy hyn
    rw [he] at hx hyn
    have hx' : x ∈ (List.insertionSort metricLeDesc ms).take n.toNat :=
      List.mem_reverse.mp hx
    have hxms : x ∈ ms :=
      (List.perm_insertionSort metricLeDesc ms).mem_iff.mp
        ((List.take_sublist _ _).subset hx')
    have hy' : y ∈ List.insertionSort metricLeDesc ms :=
      (List.perm_insertionSort metricLeDesc ms).mem_iff.mpr hy
    have hyd : y ∈ (List.insertionSort metricLeDesc ms).drop n.toNat := by
      have hmem : y ∈ (List.insertionSort metricLeDesc ms).take n.toNat
          ++ (List.insertionSort metricLeDesc ms).drop n.toNat := by
        rw [List.take_append_drop]
        exact hy'
      rcases List.mem_append.mp hmem with hcase | hcase
      · exact absurd (List.mem_reverse.mpr hcase) hyn
      · exact hcase
    have hpair : ∀ u ∈ (List.insertionSort metricLeDesc ms).take n.toNat,
        ∀ v ∈ (List.insertionSort metricLeDesc ms).drop n.toNat, metricLeDesc u v := by
      have hsd2 := hsd
      rw [← List.take_append_drop n.toNat (List.insertionSort metricLeDesc ms)] at hsd2
      exact (List.pairwise_append.mp hsd2).2.2
    have hle : y.timestamp.key ≤ x.timestamp.key := hpair x hx' y hyd
    have hne : y ≠ x := fun heq => hyn (heq ▸ hx)
    have hkne : y.timestamp.key ≠ x.timestamp.key := fun hkeq =>
      hne (List.inj_on_of_nodup_map hnd hy hxms hkeq)
    omega

theorem c7_latest_n_witness :
    validTimes [sampleMetric 0, sampleMetric 1]
    ∧ (0 : Int) ≤ 5
    ∧ [sampleMetric 0, sampleMetric 1].length ≤ (5 : Int).toNat
    ∧ (get_latest_metrics false
        ([sampleMetric 0, sampleMetric 1].map toRow) 5).Perm
        [sampleMetric 0, sampleMetric 1] :=
  ⟨by decide, by decide, by decide,
    (c7_latest_n [sampleMetric 0, sampleMetric 1] 5 (by decide) (by decide)).2.2.1
      (by decide)⟩

/-- C8: the claim states what the code's own docstring promises ("Removes
all metric records with timestamps before the specified date ... Returns:
Number of records deleted"), but the code can never do it: the VACUUM
issued right after the DELETE, inside the transaction sqlite3 implicitly
opened for the DELETE, always raises, the DELETE is rolled back and the
`except` branch returns 0.  So `delete_old_metrics` leaves every store
unchanged and returns 0; at the claim's own scenario (records at
`t = 0,10,20,30,40`, cutoff strictly between `t=10` and `t=20`) nothing
is deleted, 0 is returned where the claim requires 2, and
`get_statistics` afterwards still reports all five records instead of
three. -/
theorem c8_delete_before_vacuum_bug :
    (∀ (st : Store) (cutoff : Datetime), delete_old_metrics false st cutoff = (st, 0))
    ∧ delete_old_metrics false
        (([scenarioMetric 0, scenarioMetric 1, scenarioMetric 2, scenarioMetric 3,
          scenarioMetric 4]).map toRow) (scenarioTime 15)
      = (([scenarioMetric 0, scenarioMetric 1, scenarioMetric 2, scenarioMetric 3,
          scenarioMetric 4]).map toRow, 0)
    ∧ get_statistics false
        (delete_old_metrics false
          (([scenarioMetric 0, scenarioMetric 1, scenarioMetric 2, scenarioMetric 3,
            scenarioMetric 4]).map toRow) (scenarioTime 15)).1
      = some ⟨5, some (scenarioTime 0), some (scenarioTime 40)⟩ :=
  ⟨fun st cutoff => rfl, rfl, by decide⟩

/-- C9: with batch size 10 and durable storage enabled, a run of 25
successful ticks ends normally with two full batches of 10 auto-flushed
during the run and 5 records still pending; `stop_collection` flushes the
remainder synchronously, no record is lost, and replaying every flushed
batch against a healthy store persists exactly the 25 collected records. -/
theorem c9_25_ticks_persist_25 (ms : List ResourceMetrics) (h25 : ms.length = 25) :
    (collection_loop true 10 initCollector (ms.map Except.ok)).2 = LoopExit.stopped
    ∧ (collection_loop true 10 initCollector (ms.map Except.ok)).1.metrics_history = ms
    ∧ ((collection_loop true 10 initCollector (ms.map Except.ok)).1.flushed_batches.map
        List.length) = [10, 10]
    ∧ (collection_loop true 10 initCollector (ms.map Except.ok)).1.db_batch_buffer.length
        = 5
    ∧ (stop_collection true
        (collection_loop true 10 initCollector (ms.map Except.ok)).1).flushed_batches.flatten
      = ms
    ∧ persistFlushed (stop_collection true
        (collection_loop true 10 initCollector (ms.map Except.ok)).1).flushed_batches
      = ms.map toRow
    ∧ (persistFlushed (stop_collection true
        (collection_loop true 10 initCollector (ms.map Except.ok)).1).flushed_batches).length
      = 25 := by
  have hloop := collection_loop_ok true 10 ms initCollector
  have hfold := foldl_tickStep_db 10 ms [] [] []
  obtain ⟨hc, hr, hj⟩ := chunksAcc_spec 10 (by norm_num) ms [] (by simp)
  have hjlen := congrArg List.length hj
  rw [List.length_append, List.nil_append, h25] at hjlen
  have hmap : (chunksAcc 10 [] ms).1.map List.length
      = List.replicate (chunksAcc 10 [] ms).1.length 10 := by
    have hall : ∀ x ∈ (chunksAcc 10 [] ms).1.map List.length, x = 10 := by
      intro x hx
      rcases List.mem_map.mp hx with ⟨c0, hc0, heq⟩
      rw [← heq]
      exact hc c0 hc0
    have := List.eq_replicate_of_mem hall
    rwa [List.length_map] at this
  have hflatlen : (chunksAcc 10 [] ms).1.flatten.length
      = (chunksAcc 10 [] ms).1.length * 10 := by
    rw [List.length_flatten, hmap, List.sum_replicate, smul_eq_mul]
  have hlen2 : (chunksAcc 10 [] ms).1.length = 2 ∧ (chunksAcc 10 [] ms).2.length = 5 := by
    omega
  have hstate : (collection_loop true 10 initCollector (ms.map Except.ok)).1
      = ⟨ms, (chunksAcc 10 [] ms).2, (chunksAcc 10 [] ms).1⟩ := by
    rw [hloop]
    show (ms.foldl (tickStep true 10) ⟨[], [], []⟩) = _
    rw [hfold]
    rfl
  have hbufne : (chunksAcc 10 [] ms).2 ≠ [] := by
    intro h0
    rw [h0] at hlen2
    simp at hlen2
  have hbufempty : (chunksAcc 10 [] ms).2.isEmpty = false := by
    cases hcase : (chunksAcc 10 [] ms).2.isEmpty with
    | false => rfl
    | true => exact absurd (List.isEmpty_iff.mp hcase) hbufne
  have hstop : stop_collection true ⟨ms, (chunksAcc 10 [] ms).2, (chunksAcc 10 [] ms).1⟩
      = ⟨ms, [], (chunksAcc 10 [] ms).1 ++ [(chunksAcc 10 [] ms).2]⟩ := by
    unfold stop_collection
    rw [if_pos (by simp [hbufempty])]
  have hflat : ((chunksAcc 10 [] ms).1 ++ [(chunksAcc 10 [] ms).2]).flatten = ms := by
    rw [List.flatten_append]
    simpa using hj
  refine ⟨by rw [hloop], by rw [hstate], ?_, by rw [hstate]; exact hlen2.2, ?_, ?_, ?_⟩
  · rw [hstate]
    show (chunksAcc 10 [] ms).1.map List.length = [10, 10]
    rw [hmap, hlen2.1]
    rfl
  · rw [hstate, hstop]
    exact hflat
  · rw [hstate, hstop]
    show persistFlushed ((chunksAcc 10 [] ms).1 ++ [(chunksAcc 10 [] ms).2]) = ms.map toRow
    rw [persistFlushed_eq, hflat]
  · rw [hstate, hstop]
    show (persistFlushed ((chunksAcc 10 [] ms).1 ++ [(chunksAcc 10 [] ms).2])).length = 25
    rw [persistFlushed_eq, hflat, List.length_map, h25]

theorem c9_25_ticks_persist_25_witness :
    ((List.range 25).map sampleMetric).length = 25
    ∧ ((collection_loop true 10 initCollector
        (((List.range 25).map sampleMetric).map Except.ok)).1.flushed_batches.map
        List.length) = [10, 10]
    ∧ (persistFlushed (stop_collection true
        (collection_loop true 10 initCollector
          (((List.range 25).map sampleMetric).map Except.ok)).1).flushed_batches).length
      = 25 :=
  ⟨by simp,
    (c9_25_ticks_persist_25 ((List.range 25).map sampleMetric) (by simp)).2.2.1,
    (c9_25_ticks_persist_25 ((List.range 25).map sampleMetric) (by simp)).2.2.2.2.2.2⟩

/-- C10: because of Python's `if limit:` truthiness test, `limit = 0` is
treated exactly like an absent limit in `get_metrics_by_time_range`: no
`LIMIT` clause is added and every matching record is returned. -/
theorem c10_zero_limit_means_no_limit (engineFail : Bool) (st : Store)
    (a b : Option Datetime) :
    get_metrics_by_time_range engineFail st a b (some 0)
      = get_metrics_by_time_range engineFail st a b none := by
  cases engineFail with
  | true => rfl
  | false => rfl

end ResourceMonitor
